import Mathlib

/-!
# Verification of the pressure-measurement record keeper

Shallow embedding of the core of the repository (parser + repository of
`PressureMeasurement` records, primary variant `5rabota.py`; the sort-by-date
operation comes from `3rabota.py`, which shares every other definition used
here verbatim).

Modelling conventions:

* Python strings are `String` / `List Char`.
* `str.split()` (split on whitespace runs, dropping empty tokens) is `pySplit`.
* Python `float(text)` is modelled by `pyFloatOfString`, which implements
  CPython's accepted grammar (optional sign; `inf`/`infinity`/`nan`
  case-insensitively; otherwise decimal digits with optional single dot,
  optional exponent, and underscores allowed only between digits).  Finite
  float values are modelled as exact decimals `PyFloat.finite num exp`
  denoting `num / 10^exp`, kept in canonical form (`exp = 0` or
  `num % 10 ≠ 0`), so that numerically equal parses are structurally equal.
  This idealises IEEE-754 rounding away: it does not change which strings are
  accepted, the sign tests the program performs, or round-tripping, which is
  exact both for binary doubles (via shortest repr) and for this model.
* Python `int(text)` is `pyIntOfString` (optional sign, digits, underscores
  between digits).
* `datetime.strptime(text, "%Y.%m.%d")` succeeds exactly on: four year
  digits (year ≥ 1), a dot, a one- or two-digit month in 1..12, a dot, and a
  one- or two-digit day valid for that month and year, with nothing left
  over.  This is `dateParts`.
* Python exceptions are `Except PyErr`; `PyErr.inputError` is the script's
  `InputError` class (with the distinct raise sites as `ErrKind`s) and
  `PyErr.valueError` is a built-in `ValueError` (raised by `float`/`int`).
  `MeasurementRepository._load` catches only `InputError` per line, which the
  embedding reproduces.
* The repository's durable mirror is `Repo.file : Option (List String)`
  (`none` = the file does not exist; otherwise the list of lines).  `save`
  rewrites it wholesale from the in-memory list, as the code does.  For the
  atomicity analysis the write is allowed to fail (`saveOp writeOk`), in
  which case the Python object keeps its already-mutated in-memory list.
* Python's `sorted`/`list.sort` is a stable sort, hence extensionally equal
  to `List.insertionSort` with the corresponding (total, transitive)
  boolean relation, which is what the embedding uses.
-/

namespace FustA

/-! ## Characters and digits -/

/-- The whitespace characters recognised by Python's `str.split()` (ASCII). -/
def isPyWs (c : Char) : Bool :=
  c = ' ' || c = '\t' || c = '\n' || c = '\r' || c = '\x0b' || c = '\x0c'

/-- Numeric value of a digit character. -/
def digitVal (c : Char) : ℕ := c.toNat - 48

/-- The decimal digit character for `d < 10`. -/
def digitChar : ℕ → Char
  | 0 => '0' | 1 => '1' | 2 => '2' | 3 => '3' | 4 => '4'
  | 5 => '5' | 6 => '6' | 7 => '7' | 8 => '8' | _ => '9'

/-- Value of a digit string, most significant digit first. -/
def digitsVal (l : List Char) : ℕ := l.foldl (fun a c => a * 10 + digitVal c) 0

/-! ## `str.split()` -/

/-- Worker for `pySplit`: `acc` is the current token, reversed. -/
def pySplitAux (acc : List Char) : List Char → List (List Char)
  | [] => if acc.isEmpty then [] else [acc.reverse]
  | c :: cs =>
    if isPyWs c then
      if acc.isEmpty then pySplitAux [] cs else acc.reverse :: pySplitAux [] cs
    else
      pySplitAux (c :: acc) cs

/-- Python `text.split()`: split on whitespace runs, no empty tokens. -/
def pySplit (s : String) : List String :=
  (pySplitAux [] s.toList).map String.mk

/-! ## Digit scanning (shared by `float` and `int` parsing)

CPython permits underscores in numeric literals passed to `float`/`int`,
but only directly between two digits. -/

/-- Scan a digit run (underscores allowed between digits), accumulating the
value and the number of digits seen.  Fails on a misplaced underscore or a
non-digit. -/
def scanDigitsAux : ℕ → ℕ → List Char → Option (ℕ × ℕ)
  | v, n, [] => some (v, n)
  | v, n, c :: rest =>
    if c = '_' then
      match rest with
      | c2 :: rest2 =>
        if c2.isDigit then scanDigitsAux (v * 10 + digitVal c2) (n + 1) rest2 else none
      | [] => none
    else
      if c.isDigit then scanDigitsAux (v * 10 + digitVal c) (n + 1) rest else none

/-- Scan a nonempty digit run; the first character must be a digit. -/
def scanDigits : List Char → Option (ℕ × ℕ)
  | [] => none
  | c :: rest => if c.isDigit then scanDigitsAux (digitVal c) 1 rest else none

/-! ## Printing naturals, integers and decimals -/

/-- Decimal digits of `n`, most significant first (fuel-driven so that the
kernel can evaluate it). -/
def natToDigitsAux : ℕ → ℕ → List Char
  | 0, _ => []
  | f + 1, n =>
    if n < 10 then [digitChar n] else natToDigitsAux f (n / 10) ++ [digitChar (n % 10)]

/-- Decimal digits of `n`, most significant first. -/
def natToDigits (n : ℕ) : List Char := natToDigitsAux (n + 1) n

/-- Digits of `v` left-padded with zeros to width `k`. -/
def padDigits (k v : ℕ) : List Char :=
  List.replicate (k - (natToDigits v).length) '0' ++ natToDigits v

/-- Python `str` of an integer. -/
def intRepr (v : ℤ) : List Char :=
  (if v < 0 then ['-'] else []) ++ natToDigits v.natAbs

/-! ## Python float values

`PyFloat.finite num exp` denotes the exact decimal `num / 10 ^ exp`. -/

inductive PyFloat where
  | nan : PyFloat
  | inf (neg : Bool) : PyFloat
  | finite (num : ℤ) (exp : ℕ) : PyFloat
deriving DecidableEq

/-- Canonical-form invariant for finite decimals: the exponent is minimal. -/
def PyFloat.normal : PyFloat → Prop
  | .finite num exp => exp = 0 ∨ num % 10 ≠ 0
  | _ => True

/-- `value < 0` on Python floats (`nan < 0` is false). -/
def pyFloatLtZero : PyFloat → Bool
  | .nan => false
  | .inf b => b
  | .finite n _ => n < 0

/-- `value >= 0` on Python floats (`nan >= 0` is false). -/
def pyFloatGeZero : PyFloat → Bool
  | .nan => false
  | .inf b => !b
  | .finite n _ => 0 ≤ n

/-- Strip common factors of 10 from `num / 10 ^ exp` (fuel-driven). -/
def normDec : ℕ → ℤ → ℕ → ℤ × ℕ
  | 0, n, e => (n, e)
  | f + 1, n, e =>
    if e = 0 then (n, e)
    else if n % 10 = 0 then normDec f (n / 10) (e - 1) else (n, e)

/-- Canonical decimal for `n / 10 ^ e`. -/
def mkDec (n : ℤ) (e : ℕ) : ℤ × ℕ := normDec e n e

/-- Assemble the parsed float from sign, integer digits value, fraction
digits value and length, and decimal exponent. -/
def decOfParts (neg : Bool) (iv fv fl : ℕ) (ex : ℤ) : PyFloat :=
  let n0 : ℤ := ((iv * 10 ^ fl + fv : ℕ) : ℤ)
  let n1 : ℤ := if neg then -n0 else n0
  match ex with
  | .ofNat k => PyFloat.finite (mkDec (n1 * 10 ^ k) fl).1 (mkDec (n1 * 10 ^ k) fl).2
  | .negSucc k => PyFloat.finite (mkDec n1 (fl + (k + 1))).1 (mkDec n1 (fl + (k + 1))).2

/-! ## Parsing Python floats and ints -/

/-- Consume an optional leading sign. -/
def readSign : List Char → Bool × List Char
  | [] => (false, [])
  | c :: cs =>
    if c = '-' then (true, cs) else if c = '+' then (false, cs) else (false, c :: cs)

/-- Uppercase counterpart of the lowercase keyword letters used below. -/
def upperOf : Char → Char
  | 'i' => 'I' | 'n' => 'N' | 'f' => 'F' | 't' => 'T' | 'y' => 'Y' | 'a' => 'A'
  | c => c

/-- Case-insensitive comparison against a lowercase keyword character. -/
def eqKw (c k : Char) : Bool := c = k || c = upperOf k

/-- Case-insensitive match of a whole keyword. -/
def kwMatch : List Char → List Char → Bool
  | [], [] => true
  | c :: cs, k :: ks => eqKw c k && kwMatch cs ks
  | _, _ => false

def isInfStr (cs : List Char) : Bool :=
  kwMatch cs ['i', 'n', 'f'] || kwMatch cs ['i', 'n', 'f', 'i', 'n', 'i', 't', 'y']

def isNanStr (cs : List Char) : Bool := kwMatch cs ['n', 'a', 'n']

def isExpChar (c : Char) : Bool := c = 'e' || c = 'E'

/-- Parse the exponent part (everything from the `e` on); `[]` means the
mantissa was the whole input, i.e. exponent 0. -/
def parseExpPart : List Char → Option ℤ
  | [] => some 0
  | _ :: rest =>
    let p := readSign rest
    match scanDigits p.2 with
    | some (v, _) => some (if p.1 then -(v : ℤ) else (v : ℤ))
    | none => none

/-- Parse the mantissa into (integer-part value, fraction value, fraction
digit count).  At least one digit must be present. -/
def parseMant (cs : List Char) : Option (ℕ × ℕ × ℕ) :=
  let ip := cs.takeWhile (fun c => !(c = '.' : Bool))
  match cs.dropWhile (fun c => !(c = '.' : Bool)) with
  | [] =>
    match scanDigits ip with
    | some (iv, _) => some (iv, 0, 0)
    | none => none
  | _ :: fp =>
    if ip.isEmpty then
      match scanDigits fp with
      | some (fv, fl) => some (0, fv, fl)
      | none => none
    else if fp.isEmpty then
      match scanDigits ip with
      | some (iv, _) => some (iv, 0, 0)
      | none => none
    else
      match scanDigits ip, scanDigits fp with
      | some (iv, _), some (fv, fl) => some (iv, fv, fl)
      | _, _ => none

/-- Python `float(text)` on a whitespace-free token. -/
def pyFloatOfList (cs : List Char) : Option PyFloat :=
  let p := readSign cs
  if isInfStr p.2 then some (.inf p.1)
  else if isNanStr p.2 then some .nan
  else
    let mant := p.2.takeWhile (fun c => !isExpChar c)
    match parseMant mant, parseExpPart (p.2.dropWhile (fun c => !isExpChar c)) with
    | some (iv, fv, fl), some ex => some (decOfParts p.1 iv fv fl ex)
    | _, _ => none

def pyFloatOfString (s : String) : Option PyFloat := pyFloatOfList s.toList

/-- Python `int(text)` on a whitespace-free token. -/
def pyIntOfList (cs : List Char) : Option ℤ :=
  let p := readSign cs
  match scanDigits p.2 with
  | some (v, _) => some (if p.1 then -(v : ℤ) else (v : ℤ))
  | none => none

def pyIntOfString (s : String) : Option ℤ := pyIntOfList s.toList

/-- Python `str` of a float value. -/
def pyFloatRepr : PyFloat → List Char
  | .nan => ['n', 'a', 'n']
  | .inf false => ['i', 'n', 'f']
  | .inf true => ['-', 'i', 'n', 'f']
  | .finite n e =>
    (if n < 0 then ['-'] else []) ++
      (if e = 0 then natToDigits n.natAbs ++ ['.', '0']
       else natToDigits (n.natAbs / 10 ^ e) ++ '.' :: padDigits e (n.natAbs % 10 ^ e))

/-! ## Dates: `datetime.strptime(text, "%Y.%m.%d")` -/

def isLeap (y : ℕ) : Bool := y % 4 = 0 && (!(y % 100 = 0) || y % 400 = 0)

def daysInMonth (y m : ℕ) : ℕ :=
  if m = 2 then (if isLeap y then 29 else 28)
  else if m = 4 || m = 6 || m = 9 || m = 11 then 30 else 31

/-- Validate year/month/day digit groups and return the (y, m, d) triple. -/
def mkDate (ys ms ds : List Char) : Option (ℕ × ℕ × ℕ) :=
  if ys.all Char.isDigit && ms.all Char.isDigit && ds.all Char.isDigit then
    let y := digitsVal ys
    let mo := digitsVal ms
    let d := digitsVal ds
    if 1 ≤ y && 1 ≤ mo && mo ≤ 12 && 1 ≤ d && d ≤ daysInMonth y mo then
      some (y, mo, d)
    else none
  else none

/-- `strptime(text, "%Y.%m.%d")`: four year digits, dot, 1-2 month digits,
dot, 1-2 day digits, full match, then calendar validity. -/
def dateParts : List Char → Option (ℕ × ℕ × ℕ)
  | [y1, y2, y3, y4, '.', m1, '.', d1] => mkDate [y1, y2, y3, y4] [m1] [d1]
  | [y1, y2, y3, y4, '.', m1, '.', d1, d2] => mkDate [y1, y2, y3, y4] [m1] [d1, d2]
  | [y1, y2, y3, y4, '.', m1, m2, '.', d1] => mkDate [y1, y2, y3, y4] [m1, m2] [d1]
  | [y1, y2, y3, y4, '.', m1, m2, '.', d1, d2] => mkDate [y1, y2, y3, y4] [m1, m2] [d1, d2]
  | _ => none

/-- Encode a date triple so that `≤` on the code is calendar order. -/
def dateCode (t : ℕ × ℕ × ℕ) : ℕ := t.1 * 10000 + t.2.1 * 100 + t.2.2

/-! ## The record type and its (de)serialisation (`PressureMeasurement`) -/

structure Measurement where
  date : String
  height : PyFloat
  value : ℤ
deriving DecidableEq

/-- Raise sites of the validation pipeline (`5rabota.py` raises `InputError`
with a distinct message at each). -/
inductive ErrKind where
  | wrongFieldCount | malformedDate | notANumber | negativeHeight
  | notAnInteger | nonPositivePressure | corruptLine
deriving DecidableEq

/-- Python exceptions that reach the repository/parser boundary. -/
inductive PyErr where
  | inputError (k : ErrKind) : PyErr
  | valueError : PyErr
deriving DecidableEq

instance {ε α : Type} [DecidableEq ε] [DecidableEq α] : DecidableEq (Except ε α) := fun x y =>
  match x, y with
  | .ok a, .ok b =>
    if h : a = b then isTrue (by rw [h]) else isFalse (fun he => h (Except.ok.inj he))
  | .error a, .error b =>
    if h : a = b then isTrue (by rw [h]) else isFalse (fun he => h (Except.error.inj he))
  | .ok _, .error _ => isFalse (fun he => Except.noConfusion he)
  | .error _, .ok _ => isFalse (fun he => Except.noConfusion he)

/-- `PressureMeasurement.to_file_string`: `f"{date} {height} {value}"`. -/
def to_file_string (m : Measurement) : String :=
  String.mk (m.date.toList ++ ' ' :: pyFloatRepr m.height ++ ' ' :: intRepr m.value)

/-- `PressureMeasurement.from_file_string` (5rabota): split the stripped
line; `InputError` unless exactly 3 tokens; then `float`/`int` convert the
2nd and 3rd token (raising `ValueError` on failure) with no further
validation. -/
def from_file_string (line : String) : Except PyErr Measurement :=
  match pySplit line with
  | [t1, t2, t3] =>
    match pyFloatOfString t2 with
    | none => .error .valueError
    | some h =>
      match pyIntOfString t3 with
      | none => .error .valueError
      | some v => .ok ⟨t1, h, v⟩
  | _ => .error (.inputError .corruptLine)

/-! ## The parser (`PressureParser.parse` and helpers, 5rabota) -/

def parse_date (s : String) : Except PyErr String :=
  if (dateParts s.toList).isSome then .ok s
  else .error (.inputError .malformedDate)

def parse_height (s : String) : Except PyErr PyFloat :=
  match pyFloatOfString s with
  | none => .error (.inputError .notANumber)
  | some v => if pyFloatLtZero v then .error (.inputError .negativeHeight) else .ok v

def parse_pressure (s : String) : Except PyErr ℤ :=
  match pyIntOfString s with
  | none => .error (.inputError .notAnInteger)
  | some v => if v ≤ 0 then .error (.inputError .nonPositivePressure) else .ok v

/-- `PressureParser.parse`: split, check token count, then validate the
three tokens left to right, failing fast. -/
def parse (text : String) : Except PyErr Measurement :=
  match pySplit text with
  | [t1, t2, t3] =>
    match parse_date t1 with
    | .error e => .error e
    | .ok d =>
      match parse_height t2 with
      | .error e => .error e
      | .ok h =>
        match parse_pressure t3 with
        | .error e => .error e
        | .ok v => .ok ⟨d, h, v⟩
  | _ => .error (.inputError .wrongFieldCount)

/-! ## The repository (`MeasurementRepository`) -/

structure Repo where
  data : List Measurement
  file : Option (List String)
deriving DecidableEq

/-- The loop body of `_load` (5rabota): per line, append the deserialised
record; `continue` on `InputError`; any other exception propagates. -/
def loadAux : List Measurement → List String → Except PyErr (List Measurement)
  | acc, [] => .ok acc
  | acc, line :: rest =>
    match from_file_string line with
    | .ok m => loadAux (acc ++ [m]) rest
    | .error (.inputError _) => loadAux acc rest
    | .error e => .error e

/-- `_load`: a missing file (`FileNotFoundError`) yields the empty list. -/
def load : Option (List String) → Except PyErr (List Measurement)
  | none => .ok []
  | some lines => loadAux [] lines

/-- `MeasurementRepository(filename)`: load the mirror into memory. -/
def openRepo (store : Option (List String)) : Except PyErr Repo :=
  match load store with
  | .ok data => .ok ⟨data, store⟩
  | .error e => .error e

inductive StorageErr where
  | storageWriteFailure : StorageErr
deriving DecidableEq

/-- `save`: rewrite the whole mirror from memory.  `writeOk = false` models
an I/O failure: the exception propagates and the file is left as it was. -/
def saveOp (writeOk : Bool) (r : Repo) : Except StorageErr Unit × Repo :=
  if writeOk then (.ok (), { r with file := some (r.data.map to_file_string) })
  else (.error .storageWriteFailure, r)

/-- `add`: append to the in-memory list, then `save`.  On a write failure
the already-mutated object is kept (Python has no rollback here). -/
def addOp (writeOk : Bool) (m : Measurement) (r : Repo) : Except StorageErr Unit × Repo :=
  saveOp writeOk { r with data := r.data ++ [m] }

/-- `add` in the normal (write-succeeds) world. -/
def add (m : Measurement) (r : Repo) : Repo := (addOp true m r).2

/-! ## Ranking and sorting -/

/-- `sorted(data, key=lambda x: x.value, reverse=True)[:n]` — Python's sort
is stable, so it is extensionally `List.insertionSort` with this relation. -/
def top_n_by_pressure (n : ℕ) (data : List Measurement) : List Measurement :=
  (List.insertionSort (fun a b => b.value ≤ a.value) data).take n

/-- `show_top5`: a pure read of the repository (`sorted` copies). -/
def show_top5 (r : Repo) : List Measurement × Repo :=
  (top_n_by_pressure 5 r.data, r)

/-- Sort key of `date_as_datetime()` (calendar order). -/
def dkey (m : Measurement) : ℕ := dateCode ((dateParts m.date.toList).getD (0, 0, 0))

/-- `sort_by_date` (3rabota): `repo.data.sort(key=...)` then `save`.
`date_as_datetime` raises `ValueError` if some stored date no longer parses;
otherwise the list is stably sorted ascending by calendar date and the
mirror rewritten. -/
def sort_by_date (r : Repo) : Except PyErr Repo :=
  if r.data.all (fun m => (dateParts m.date.toList).isSome) then
    let d := List.insertionSort (fun a b => dkey a ≤ dkey b) r.data
    .ok { data := d, file := some (d.map to_file_string) }
  else .error .valueError

/-! ## Derived predicates used in the statements -/

/-- A syntactically valid stored date (what `strptime` accepts). -/
def validDate (s : String) : Prop := (dateParts s.toList).isSome = true

instance (s : String) : Decidable (validDate s) := by unfold validDate; infer_instance

/-- A measurement whose fields are as a run of the program can produce them:
the date parses and the height is in canonical decimal form.  (Every value
`float(...)` can return is of this shape.) -/
def Serializable (m : Measurement) : Prop :=
  validDate m.date ∧ m.height.normal

/-! ## Character-class lemmas -/

theorem ne_of_isDigit {c c' : Char} (h : c.isDigit = true) (h' : c'.isDigit = false) :
    c ≠ c' := by
  intro he
  rw [he, h'] at h
  exact Bool.noConfusion h

theorem isPyWs_of_isDigit {c : Char} (h : c.isDigit = true) : isPyWs c = false := by
  have h1 : c ≠ ' ' := ne_of_isDigit h (by decide)
  have h2 : c ≠ '\t' := ne_of_isDigit h (by decide)
  have h3 : c ≠ '\n' := ne_of_isDigit h (by decide)
  have h4 : c ≠ '\r' := ne_of_isDigit h (by decide)
  have h5 : c ≠ '\x0b' := ne_of_isDigit h (by decide)
  have h6 : c ≠ '\x0c' := ne_of_isDigit h (by decide)
  simp [isPyWs, h1, h2, h3, h4, h5, h6]

theorem isExpChar_of_isDigit {c : Char} (h : c.isDigit = true) : isExpChar c = false := by
  have h1 : c ≠ 'e' := ne_of_isDigit h (by decide)
  have h2 : c ≠ 'E' := ne_of_isDigit h (by decide)
  simp [isExpChar, h1, h2]

/-! ## `takeWhile`/`dropWhile` navigation -/

theorem takeWhile_all {p : Char → Bool} :
    ∀ {A : List Char}, (∀ c ∈ A, p c = true) → A.takeWhile p = A := by
  intro A
  induction A with
  | nil => intro _; rfl
  | cons a A ih =>
    intro h
    have ha : p a = true := h a (List.mem_cons_self a A)
    simp [List.takeWhile_cons, ha, ih fun c hc => h c (List.mem_cons_of_mem a hc)]

theorem dropWhile_all {p : Char → Bool} :
    ∀ {A : List Char}, (∀ c ∈ A, p c = true) → A.dropWhile p = [] := by
  intro A
  induction A with
  | nil => intro _; rfl
  | cons a A ih =>
    intro h
    have ha : p a = true := h a (List.mem_cons_self a A)
    simp [List.dropWhile_cons, ha, ih fun c hc => h c (List.mem_cons_of_mem a hc)]

theorem takeWhile_middle {p : Char → Bool} {A : List Char} {b : Char} (B : List Char)
    (hA : ∀ c ∈ A, p c = true) (hb : p b = false) :
    (A ++ b :: B).takeWhile p = A := by
  induction A with
  | nil => simp [List.takeWhile_cons, hb]
  | cons a A ih =>
    have ha : p a = true := hA a (List.mem_cons_self a A)
    simp [List.takeWhile_cons, ha]
    exact ih fun c hc => hA c (List.mem_cons_of_mem a hc)

theorem dropWhile_middle {p : Char → Bool} {A : List Char} {b : Char} (B : List Char)
    (hA : ∀ c ∈ A, p c = true) (hb : p b = false) :
    (A ++ b :: B).dropWhile p = b :: B := by
  induction A with
  | nil => simp [List.dropWhile_cons, hb]
  | cons a A ih =>
    have ha : p a = true := hA a (List.mem_cons_self a A)
    simp [List.dropWhile_cons, ha]
    exact ih fun c hc => hA c (List.mem_cons_of_mem a hc)

/-! ## Digit-scanning lemmas -/

theorem scanDigitsAux_digits :
    ∀ (ds : List Char) (v n : ℕ), (∀ c ∈ ds, c.isDigit = true) →
      scanDigitsAux v n ds =
        some (ds.foldl (fun a c => a * 10 + digitVal c) v, n + ds.length) := by
  intro ds
  induction ds with
  | nil => intro v n _; simp [scanDigitsAux]
  | cons c rest ih =>
    intro v n h
    have hc : c.isDigit = true := h c (List.mem_cons_self c rest)
    have hcu : c ≠ '_' := ne_of_isDigit hc (by decide)
    rw [scanDigitsAux.eq_def]
    dsimp only
    rw [if_neg hcu, if_pos hc, ih _ _ fun x hx => h x (List.mem_cons_of_mem c hx)]
    simp [Nat.add_assoc, Nat.add_comm 1]

theorem scanDigits_digits {ds : List Char} (hne : ds ≠ [])
    (h : ∀ c ∈ ds, c.isDigit = true) :
    scanDigits ds = some (digitsVal ds, ds.length) := by
  match ds, hne with
  | c :: rest, _ =>
    have hc : c.isDigit = true := h c (List.mem_cons_self c rest)
    rw [scanDigits, if_pos hc, scanDigitsAux_digits rest (digitVal c) 1
      fun x hx => h x (List.mem_cons_of_mem c hx)]
    simp [digitsVal, Nat.add_comm]

/-! ## Digit-printing lemmas -/

theorem digitChar_isDigit {d : ℕ} (h : d < 10) : (digitChar d).isDigit = true := by
  interval_cases d <;> decide

theorem digitVal_digitChar {d : ℕ} (h : d < 10) : digitVal (digitChar d) = d := by
  interval_cases d <;> decide

theorem natToDigitsAux_spec :
    ∀ (f n : ℕ), n < f →
      natToDigitsAux f n ≠ [] ∧ (∀ c ∈ natToDigitsAux f n, c.isDigit = true) ∧
        digitsVal (natToDigitsAux f n) = n := by
  intro f
  induction f with
  | zero => intro n h; exact absurd h (Nat.not_lt_zero n)
  | succ f ih =>
    intro n hn
    by_cases h10 : n < 10
    · rw [natToDigitsAux, if_pos h10]
      refine ⟨by simp, ?_, ?_⟩
      · intro c hc
        rw [List.mem_singleton] at hc
        rw [hc]
        exact digitChar_isDigit h10
      · simp [digitsVal, digitVal_digitChar h10]
    · have hge : 10 ≤ n := Nat.le_of_not_lt h10
      have hdiv : n / 10 < f := by
        have h1 : n / 10 < n := Nat.div_lt_self (by omega) (by omega)
        omega
      obtain ⟨hne, hdig, hval⟩ := ih (n / 10) hdiv
      rw [natToDigitsAux, if_neg h10]
      refine ⟨by simp, ?_, ?_⟩
      · intro c hc
        rcases List.mem_append.mp hc with h | h
        · exact hdig c h
        · rw [List.mem_singleton] at h
          rw [h]
          exact digitChar_isDigit (Nat.mod_lt n (by omega))
      · rw [digitsVal, List.foldl_append]
        have : List.foldl (fun a c => a * 10 + digitVal c) 0 (natToDigitsAux f (n / 10)) =
            n / 10 := hval
        rw [this]
        simp [digitVal_digitChar (Nat.mod_lt n (show 0 < 10 by omega))]
        omega

theorem natToDigits_ne_nil (n : ℕ) : natToDigits n ≠ [] :=
  (natToDigitsAux_spec (n + 1) n (Nat.lt_succ_self n)).1

theorem natToDigits_digits (n : ℕ) : ∀ c ∈ natToDigits n, c.isDigit = true :=
  (natToDigitsAux_spec (n + 1) n (Nat.lt_succ_self n)).2.1

theorem digitsVal_natToDigits (n : ℕ) : digitsVal (natToDigits n) = n :=
  (natToDigitsAux_spec (n + 1) n (Nat.lt_succ_self n)).2.2

theorem natToDigitsAux_length :
    ∀ (f n k : ℕ), n < f → 1 ≤ k → n < 10 ^ k → (natToDigitsAux f n).length ≤ k := by
  intro f
  induction f with
  | zero => intro n k h; exact absurd h (Nat.not_lt_zero n)
  | succ f ih =>
    intro n k hn hk hnk
    by_cases h10 : n < 10
    · rw [natToDigitsAux, if_pos h10]
      simpa using hk
    · have hge : 10 ≤ n := Nat.le_of_not_lt h10
      have hk2 : 2 ≤ k := by
        by_contra hlt
        have hk1 : k = 1 := by omega
        rw [hk1, pow_one] at hnk
        omega
      have hdiv : n / 10 < f := by
        have h1 : n / 10 < n := Nat.div_lt_self (by omega) (by omega)
        omega
      have hpow : n / 10 < 10 ^ (k - 1) := by
        rw [Nat.div_lt_iff_lt_mul (show 0 < 10 by omega)]
        calc n < 10 ^ k := hnk
        _ = 10 ^ (k - 1) * 10 := by
            rw [← pow_succ]
            congr 1
            omega
      have := ih (n / 10) (k - 1) hdiv (by omega) hpow
      rw [natToDigitsAux, if_neg h10]
      rw [List.length_append, List.length_singleton]
      omega

theorem natToDigits_length {n k : ℕ} (hk : 1 ≤ k) (h : n < 10 ^ k) :
    (natToDigits n).length ≤ k :=
  natToDigitsAux_length (n + 1) n k (Nat.lt_succ_self n) hk h

theorem foldl_replicate_zero : ∀ (j : ℕ),
    List.foldl (fun a c => a * 10 + digitVal c) 0 (List.replicate j '0') = 0 := by
  intro j
  induction j with
  | zero => rfl
  | succ j ih =>
    rw [List.replicate_succ, List.foldl_cons]
    simpa [digitVal] using ih

theorem padDigits_spec {k v : ℕ} (hk : 1 ≤ k) (hv : v < 10 ^ k) :
    (padDigits k v).length = k ∧ (∀ c ∈ padDigits k v, c.isDigit = true) ∧
      digitsVal (padDigits k v) = v ∧ padDigits k v ≠ [] := by
  have hlen : (natToDigits v).length ≤ k := natToDigits_length hk hv
  refine ⟨?_, ?_, ?_, ?_⟩
  · rw [padDigits, List.length_append, List.length_replicate]
    omega
  · intro c hc
    rcases List.mem_append.mp hc with h | h
    · rw [List.eq_of_mem_replicate h]
      decide
    · exact natToDigits_digits v c h
  · rw [padDigits, digitsVal, List.foldl_append, foldl_replicate_zero]
    exact digitsVal_natToDigits v
  · rw [padDigits]
    intro h
    exact natToDigits_ne_nil v (List.append_eq_nil.mp h).2

/-! ## `pySplit` lemmas -/

theorem pySplitAux_nonws :
    ∀ (A acc R : List Char), (∀ c ∈ A, isPyWs c = false) →
      pySplitAux acc (A ++ R) = pySplitAux (A.reverse ++ acc) R := by
  intro A
  induction A with
  | nil => intro acc R _; simp
  | cons a A ih =>
    intro acc R h
    have ha : isPyWs a = false := h a (List.mem_cons_self a A)
    rw [List.cons_append, pySplitAux.eq_def]
    dsimp only
    rw [if_neg (by rw [ha]; exact Bool.false_ne_true),
      ih (a :: acc) R fun c hc => h c (List.mem_cons_of_mem a hc)]
    simp

theorem pySplitAux_space (acc R : List Char) :
    pySplitAux acc (' ' :: R) =
      if acc.isEmpty then pySplitAux [] R else acc.reverse :: pySplitAux [] R := by
  rw [pySplitAux.eq_def]
  dsimp only
  rw [if_pos (by decide)]

theorem pySplit_three {A B C : List Char}
    (hA : A ≠ []) (hB : B ≠ []) (hC : C ≠ [])
    (hAw : ∀ c ∈ A, isPyWs c = false) (hBw : ∀ c ∈ B, isPyWs c = false)
    (hCw : ∀ c ∈ C, isPyWs c = false) :
    pySplitAux [] (A ++ ' ' :: (B ++ ' ' :: C)) = [A, B, C] := by
  have hAe : A.reverse.isEmpty = false := by
    cases hA' : A.reverse with
    | nil => exact absurd (List.reverse_eq_nil_iff.mp hA') hA
    | cons x xs => rfl
  have hBe : B.reverse.isEmpty = false := by
    cases hB' : B.reverse with
    | nil => exact absurd (List.reverse_eq_nil_iff.mp hB') hB
    | cons x xs => rfl
  have hCe : C.reverse.isEmpty = false := by
    cases hC' : C.reverse with
    | nil => exact absurd (List.reverse_eq_nil_iff.mp hC') hC
    | cons x xs => rfl
  rw [pySplitAux_nonws A [] _ hAw, List.append_nil, pySplitAux_space]
  rw [if_neg (by rw [hAe]; exact Bool.false_ne_true)]
  rw [pySplitAux_nonws B [] _ hBw, List.append_nil, pySplitAux_space]
  rw [if_neg (by rw [hBe]; exact Bool.false_ne_true)]
  rw [show C = C ++ [] from (List.append_nil C).symm, pySplitAux_nonws C [] [] hCw]
  rw [pySplitAux.eq_def]
  dsimp only
  rw [List.append_nil, if_neg (by rw [hCe]; exact Bool.false_ne_true)]
  simp

theorem pySplit_three_str (a b c : String)
    (hA : a.toList ≠ []) (hB : b.toList ≠ []) (hC : c.toList ≠ [])
    (hAw : ∀ x ∈ a.toList, isPyWs x = false) (hBw : ∀ x ∈ b.toList, isPyWs x = false)
    (hCw : ∀ x ∈ c.toList, isPyWs x = false) :
    pySplit (String.mk (a.toList ++ ' ' :: (b.toList ++ ' ' :: c.toList))) = [a, b, c] := by
  show ((pySplitAux [] (a.toList ++ ' ' :: (b.toList ++ ' ' :: c.toList))).map String.mk) =
    [a, b, c]
  rw [pySplit_three hA hB hC hAw hBw hCw]
  simp [List.map_cons]

/-! ## Sign and keyword lemmas -/

theorem readSign_dash (cs : List Char) : readSign ('-' :: cs) = (true, cs) := by
  rw [readSign.eq_def]
  dsimp only
  rw [if_pos rfl]

theorem readSign_other {c : Char} (cs : List Char) (h1 : c ≠ '-') (h2 : c ≠ '+') :
    readSign (c :: cs) = (false, c :: cs) := by
  rw [readSign.eq_def]
  dsimp only
  rw [if_neg h1, if_neg h2]

theorem eqKw_false_of_digit {c k : Char} (hc : c.isDigit = true)
    (h1 : k.isDigit = false) (h2 : (upperOf k).isDigit = false) : eqKw c k = false := by
  simp [eqKw, ne_of_isDigit hc h1, ne_of_isDigit hc h2]

theorem isInfStr_digit_head {c : Char} {cs : List Char} (hc : c.isDigit = true) :
    isInfStr (c :: cs) = false := by
  have h : eqKw c 'i' = false := eqKw_false_of_digit hc (by decide) (by decide)
  simp [isInfStr, kwMatch, h]

theorem isNanStr_digit_head {c : Char} {cs : List Char} (hc : c.isDigit = true) :
    isNanStr (c :: cs) = false := by
  have h : eqKw c 'n' = false := eqKw_false_of_digit hc (by decide) (by decide)
  simp [isNanStr, kwMatch, h]

/-! ## Canonical-decimal lemmas -/

theorem normDec_id : ∀ (f : ℕ) {n : ℤ} {e : ℕ}, (e = 0 ∨ n % 10 ≠ 0) →
    normDec f n e = (n, e) := by
  intro f
  induction f with
  | zero => intro n e _; rfl
  | succ f _ =>
    intro n e h
    rw [normDec]
    by_cases he : e = 0
    · rw [if_pos he]
    · rw [if_neg he, if_neg (h.resolve_left he)]

theorem normDec_normal : ∀ (f : ℕ) (n : ℤ) (e : ℕ), e ≤ f →
    ((normDec f n e).2 = 0 ∨ (normDec f n e).1 % 10 ≠ 0) := by
  intro f
  induction f with
  | zero =>
    intro n e he
    left
    rw [normDec]
    omega
  | succ f ih =>
    intro n e he
    rw [normDec]
    by_cases he0 : e = 0
    · rw [if_pos he0]; left; exact he0
    · rw [if_neg he0]
      by_cases hm : n % 10 = 0
      · rw [if_pos hm]
        exact ih (n / 10) (e - 1) (by omega)
      · rw [if_neg hm]; right; exact hm

theorem mkDec_id {n : ℤ} {e : ℕ} (h : e = 0 ∨ n % 10 ≠ 0) : mkDec n e = (n, e) :=
  normDec_id e h

theorem mkDec_ten (n : ℤ) : mkDec (n * 10) 1 = (n, 0) := by
  rw [mkDec, normDec, if_neg (by omega), if_pos (by omega : n * 10 % 10 = 0)]
  rw [normDec, Int.mul_ediv_cancel n (by omega)]

/-- `decOfParts` at exponent zero, unfolded. -/
theorem decOfParts_zero (neg : Bool) (iv fv fl : ℕ) :
    decOfParts neg iv fv fl 0 =
      PyFloat.finite
        (mkDec ((if neg then -((iv * 10 ^ fl + fv : ℕ) : ℤ)
          else ((iv * 10 ^ fl + fv : ℕ) : ℤ)) * 10 ^ (0 : ℕ)) fl).1
        (mkDec ((if neg then -((iv * 10 ^ fl + fv : ℕ) : ℤ)
          else ((iv * 10 ^ fl + fv : ℕ) : ℤ)) * 10 ^ (0 : ℕ)) fl).2 := rfl

/-! ## Float and int round trips -/

theorem pyFloatOfList_decimal {neg : Bool} {ipds fds : List Char}
    (hip : ipds ≠ []) (hfd : fds ≠ [])
    (hipd : ∀ c ∈ ipds, c.isDigit = true) (hfdd : ∀ c ∈ fds, c.isDigit = true) :
    pyFloatOfList ((if neg then ['-'] else []) ++ ipds ++ '.' :: fds) =
      some (decOfParts neg (digitsVal ipds) (digitsVal fds) fds.length 0) := by
  match ipds, hip with
  | hc :: tl, _ =>
  have hhc : hc.isDigit = true := hipd hc (List.mem_cons_self hc tl)
  -- the body after the optional sign
  have hB : ∀ c ∈ (hc :: tl) ++ '.' :: fds, (!isExpChar c) = true := by
    intro c hcmem
    rcases List.mem_append.mp hcmem with h | h
    · rw [isExpChar_of_isDigit (hipd c h)]; rfl
    · rcases List.mem_cons.mp h with h | h
      · rw [h]; decide
      · rw [isExpChar_of_isDigit (hfdd c h)]; rfl
  have hsign : readSign ((if neg then ['-'] else []) ++ (hc :: tl) ++ '.' :: fds) =
      (neg, (hc :: tl) ++ '.' :: fds) := by
    cases neg with
    | true => rw [if_pos rfl]; exact readSign_dash _
    | false =>
      rw [if_neg Bool.false_ne_true, List.nil_append, List.cons_append]
      exact readSign_other _ (ne_of_isDigit hhc (by decide)) (ne_of_isDigit hhc (by decide))
  have hInf : isInfStr ((hc :: tl) ++ '.' :: fds) = false := isInfStr_digit_head hhc
  have hNan : isNanStr ((hc :: tl) ++ '.' :: fds) = false := isNanStr_digit_head hhc
  have htake : ((hc :: tl) ++ '.' :: fds).takeWhile (fun c => !isExpChar c) =
      (hc :: tl) ++ '.' :: fds := takeWhile_all hB
  have hdrop : ((hc :: tl) ++ '.' :: fds).dropWhile (fun c => !isExpChar c) = [] :=
    dropWhile_all hB
  have hmant : parseMant ((hc :: tl) ++ '.' :: fds) =
      some (digitsVal (hc :: tl), digitsVal fds, fds.length) := by
    have htake2 : ((hc :: tl) ++ '.' :: fds).takeWhile (fun c => !(c = '.' : Bool)) =
        hc :: tl := by
      refine takeWhile_middle fds ?_ (by decide)
      intro c hcm
      rw [decide_eq_false (ne_of_isDigit (hipd c hcm) (by decide))]
      rfl
    have hdrop2 : ((hc :: tl) ++ '.' :: fds).dropWhile (fun c => !(c = '.' : Bool)) =
        '.' :: fds := by
      refine dropWhile_middle fds ?_ (by decide)
      intro c hcm
      rw [decide_eq_false (ne_of_isDigit (hipd c hcm) (by decide))]
      rfl
    rw [parseMant]
    simp only [htake2, hdrop2]
    match fds, hfd with
    | f0 :: ftl, _ =>
    rw [show (hc :: tl).isEmpty = false from rfl, show (f0 :: ftl).isEmpty = false from rfl]
    simp only [Bool.false_eq_true, if_false]
    rw [scanDigits_digits (by simp) hipd, scanDigits_digits (by simp) hfdd]
  rw [pyFloatOfList]
  simp only [hsign, hInf, hNan, htake, hdrop, Bool.false_eq_true, if_false]
  rw [hmant]
  rfl

theorem pyFloatRepr_roundtrip : ∀ {v : PyFloat}, v.normal →
    pyFloatOfList (pyFloatRepr v) = some v := by
  intro v hv
  match v with
  | .nan => decide
  | .inf true => decide
  | .inf false => decide
  | .finite n e =>
    have hnorm : e = 0 ∨ n % 10 ≠ 0 := hv
    by_cases he : e = 0
    · -- integral value: printed as "<digits>.0"
      subst he
      have h1 : pyFloatRepr (.finite n 0) =
          (if (decide (n < 0)) then ['-'] else []) ++ natToDigits n.natAbs ++ '.' :: ['0'] := by
        rw [pyFloatRepr, if_pos rfl]
        by_cases hn : n < 0 <;>
          simp [hn, List.append_assoc]
      rw [h1, pyFloatOfList_decimal (natToDigits_ne_nil n.natAbs) (by simp)
        (natToDigits_digits n.natAbs) (by intro c hcm; rw [List.mem_singleton] at hcm
                                          rw [hcm]; decide)]
      rw [digitsVal_natToDigits]
      have hval : digitsVal ['0'] = 0 := by decide
      rw [hval, List.length_singleton, decOfParts_zero]
      have harg : ((if (decide (n < 0)) then -((n.natAbs * 10 ^ 1 + 0 : ℕ) : ℤ)
          else ((n.natAbs * 10 ^ 1 + 0 : ℕ) : ℤ)) : ℤ) * 10 ^ (0 : ℕ) = n * 10 := by
        rw [pow_zero, mul_one, pow_one, Nat.add_zero]
        by_cases hn : n < 0
        · rw [decide_eq_true hn, if_pos rfl]; omega
        · rw [decide_eq_false hn, if_neg (by simp)]; omega
      rw [harg, mkDec_ten]
    · -- e ≥ 1: printed as "<int part>.<padded fraction>"
      have hfr : n.natAbs % 10 ^ e < 10 ^ e := Nat.mod_lt _ (by positivity)
      obtain ⟨hplen, hpdig, hpval, hpne⟩ := padDigits_spec (by omega) hfr
      have h1 : pyFloatRepr (.finite n e) =
          (if (decide (n < 0)) then ['-'] else []) ++ natToDigits (n.natAbs / 10 ^ e) ++
            '.' :: padDigits e (n.natAbs % 10 ^ e) := by
        rw [pyFloatRepr, if_neg he]
        by_cases hn : n < 0 <;>
          simp [hn, List.append_assoc]
      rw [h1, pyFloatOfList_decimal (natToDigits_ne_nil _) hpne (natToDigits_digits _) hpdig]
      rw [digitsVal_natToDigits, hpval, hplen, decOfParts_zero]
      have harg : ((if (decide (n < 0)) then
          -((n.natAbs / 10 ^ e * 10 ^ e + n.natAbs % 10 ^ e : ℕ) : ℤ)
          else ((n.natAbs / 10 ^ e * 10 ^ e + n.natAbs % 10 ^ e : ℕ) : ℤ)) : ℤ) *
            10 ^ (0 : ℕ) = n := by
        rw [pow_zero, mul_one]
        have hdm : n.natAbs / 10 ^ e * 10 ^ e + n.natAbs % 10 ^ e = n.natAbs := by
          rw [Nat.mul_comm]
          exact Nat.div_add_mod n.natAbs (10 ^ e)
        rw [hdm]
        by_cases hn : n < 0
        · rw [decide_eq_true hn, if_pos rfl]; omega
        · rw [decide_eq_false hn, if_neg (by simp)]; omega
      rw [harg, mkDec_id hnorm]

theorem pyIntRepr_roundtrip (v : ℤ) : pyIntOfList (intRepr v) = some v := by
  rw [intRepr, pyIntOfList]
  have hsign : readSign ((if v < 0 then ['-'] else []) ++ natToDigits v.natAbs) =
      (decide (v < 0), natToDigits v.natAbs) := by
    match hd : natToDigits v.natAbs, natToDigits_ne_nil v.natAbs with
    | hc :: tl, _ =>
      have hhc : hc.isDigit = true := by
        have := natToDigits_digits v.natAbs
        rw [hd] at this
        exact this hc (List.mem_cons_self hc tl)
      by_cases hv : v < 0
      · rw [if_pos hv, decide_eq_true hv]
        exact readSign_dash _
      · rw [if_neg hv, decide_eq_false hv, List.nil_append]
        exact readSign_other _ (ne_of_isDigit hhc (by decide)) (ne_of_isDigit hhc (by decide))
  simp only [hsign]
  rw [scanDigits_digits (natToDigits_ne_nil v.natAbs) (natToDigits_digits v.natAbs),
    digitsVal_natToDigits]
  by_cases hv : v < 0
  · rw [decide_eq_true hv]
    simp only [if_pos]
    congr 1
    omega
  · rw [decide_eq_false hv]
    simp only [Bool.false_eq_true, if_false]
    congr 1
    omega

/-! ## Date-token character facts -/

theorem mkDate_digits {ys ms ds : List Char} {t : ℕ × ℕ × ℕ} (h : mkDate ys ms ds = some t) :
    (∀ c ∈ ys, c.isDigit = true) ∧ (∀ c ∈ ms, c.isDigit = true) ∧
      (∀ c ∈ ds, c.isDigit = true) := by
  rw [mkDate] at h
  by_cases h1 : (ys.all Char.isDigit && ms.all Char.isDigit && ds.all Char.isDigit) = true
  · rw [Bool.and_eq_true, Bool.and_eq_true] at h1
    exact ⟨List.all_eq_true.mp h1.1.1, List.all_eq_true.mp h1.1.2, List.all_eq_true.mp h1.2⟩
  · rw [if_neg h1] at h
    exact absurd h (by simp)

theorem dateParts_chars {cs : List Char} (h : (dateParts cs).isSome = true) :
    cs ≠ [] ∧ ∀ c ∈ cs, isPyWs c = false := by
  rw [dateParts.eq_def] at h
  split at h
  case _ y1 y2 y3 y4 m1 d1 =>
    obtain ⟨hy, hm, hd⟩ := mkDate_digits (Option.isSome_iff_exists.mp h).choose_spec
    refine ⟨by simp, ?_⟩
    intro c hc
    simp only [List.mem_cons, List.not_mem_nil, or_false] at hc
    rcases hc with rfl | rfl | rfl | rfl | rfl | rfl | rfl | rfl
    · exact isPyWs_of_isDigit (hy c (by simp))
    · exact isPyWs_of_isDigit (hy c (by simp))
    · exact isPyWs_of_isDigit (hy c (by simp))
    · exact isPyWs_of_isDigit (hy c (by simp))
    · decide
    · exact isPyWs_of_isDigit (hm c (by simp))
    · decide
    · exact isPyWs_of_isDigit (hd c (by simp))
  case _ y1 y2 y3 y4 m1 d1 d2 =>
    obtain ⟨hy, hm, hd⟩ := mkDate_digits (Option.isSome_iff_exists.mp h).choose_spec
    refine ⟨by simp, ?_⟩
    intro c hc
    simp only [List.mem_cons, List.not_mem_nil, or_false] at hc
    rcases hc with rfl | rfl | rfl | rfl | rfl | rfl | rfl | rfl | rfl
    · exact isPyWs_of_isDigit (hy c (by simp))
    · exact isPyWs_of_isDigit (hy c (by simp))
    · exact isPyWs_of_isDigit (hy c (by simp))
    · exact isPyWs_of_isDigit (hy c (by simp))
    · decide
    · exact isPyWs_of_isDigit (hm c (by simp))
    · decide
    · exact isPyWs_of_isDigit (hd c (by simp))
    · exact isPyWs_of_isDigit (hd c (by simp))
  case _ y1 y2 y3 y4 m1 m2 d1 =>
    obtain ⟨hy, hm, hd⟩ := mkDate_digits (Option.isSome_iff_exists.mp h).choose_spec
    refine ⟨by simp, ?_⟩
    intro c hc
    simp only [List.mem_cons, List.not_mem_nil, or_false] at hc
    rcases hc with rfl | rfl | rfl | rfl | rfl | rfl | rfl | rfl | rfl
    · exact isPyWs_of_isDigit (hy c (by simp))
    · exact isPyWs_of_isDigit (hy c (by simp))
    · exact isPyWs_of_isDigit (hy c (by simp))
    · exact isPyWs_of_isDigit (hy c (by simp))
    · decide
    · exact isPyWs_of_isDigit (hm c (by simp))
    · exact isPyWs_of_isDigit (hm c (by simp))
    · decide
    · exact isPyWs_of_isDigit (hd c (by simp))
  case _ y1 y2 y3 y4 m1 m2 d1 d2 =>
    obtain ⟨hy, hm, hd⟩ := mkDate_digits (Option.isSome_iff_exists.mp h).choose_spec
    refine ⟨by simp, ?_⟩
    intro c hc
    simp only [List.mem_cons, List.not_mem_nil, or_false] at hc
    rcases hc with rfl | rfl | rfl | rfl | rfl | rfl | rfl | rfl | rfl | rfl
    · exact isPyWs_of_isDigit (hy c (by simp))
    · exact isPyWs_of_isDigit (hy c (by simp))
    · exact isPyWs_of_isDigit (hy c (by simp))
    · exact isPyWs_of_isDigit (hy c (by simp))
    · decide
    · exact isPyWs_of_isDigit (hm c (by simp))
    · exact isPyWs_of_isDigit (hm c (by simp))
    · decide
    · exact isPyWs_of_isDigit (hd c (by simp))
    · exact isPyWs_of_isDigit (hd c (by simp))
  case _ =>
    simp at h

/-! ## Characters of the serialised fields -/

theorem pyFloatRepr_ne_nil (v : PyFloat) : pyFloatRepr v ≠ [] := by
  match v with
  | .nan => decide
  | .inf true => decide
  | .inf false => decide
  | .finite n e =>
    rw [pyFloatRepr]
    intro hcon
    rcases List.append_eq_nil.mp hcon with ⟨-, h2⟩
    by_cases he : e = 0
    · rw [if_pos he] at h2
      exact natToDigits_ne_nil n.natAbs (List.append_eq_nil.mp h2).1
    · rw [if_neg he] at h2
      exact natToDigits_ne_nil _ (List.append_eq_nil.mp h2).1

theorem pyFloatRepr_no_ws (v : PyFloat) : ∀ c ∈ pyFloatRepr v, isPyWs c = false := by
  match v with
  | .nan => decide
  | .inf true => decide
  | .inf false => decide
  | .finite n e =>
    intro c hc
    rw [pyFloatRepr] at hc
    rcases List.mem_append.mp hc with h | h
    · by_cases hn : n < 0
      · rw [if_pos hn, List.mem_singleton] at h
        rw [h]; decide
      · rw [if_neg hn] at h
        exact absurd h (List.not_mem_nil c)
    · by_cases he : e = 0
      · rw [if_pos he] at h
        rcases List.mem_append.mp h with h | h
        · exact isPyWs_of_isDigit (natToDigits_digits _ c h)
        · simp only [List.mem_cons, List.not_mem_nil, or_false] at h
          rcases h with rfl | rfl <;> decide
      · rw [if_neg he] at h
        rcases List.mem_append.mp h with h | h
        · exact isPyWs_of_isDigit (natToDigits_digits _ c h)
        · rcases List.mem_cons.mp h with rfl | h
          · decide
          · have hfr : n.natAbs % 10 ^ e < 10 ^ e := Nat.mod_lt _ (by positivity)
            exact isPyWs_of_isDigit ((padDigits_spec (by omega) hfr).2.1 c h)

theorem intRepr_ne_nil (v : ℤ) : intRepr v ≠ [] := by
  rw [intRepr]
  intro hcon
  exact natToDigits_ne_nil v.natAbs (List.append_eq_nil.mp hcon).2

theorem intRepr_no_ws (v : ℤ) : ∀ c ∈ intRepr v, isPyWs c = false := by
  intro c hc
  rw [intRepr] at hc
  rcases List.mem_append.mp hc with h | h
  · by_cases hv : v < 0
    · rw [if_pos hv, List.mem_singleton] at h
      rw [h]; decide
    · rw [if_neg hv] at h
      exact absurd h (List.not_mem_nil c)
  · exact isPyWs_of_isDigit (natToDigits_digits _ c h)

/-! ## Serialisation round trip -/

theorem from_to_file_string {m : Measurement} (hm : Serializable m) :
    from_file_string (to_file_string m) = .ok m := by
  obtain ⟨hd, hh⟩ := hm
  obtain ⟨hdne, hdnw⟩ := dateParts_chars hd
  have hshape : m.date.toList ++ ' ' :: pyFloatRepr m.height ++ ' ' :: intRepr m.value =
      m.date.toList ++ ' ' :: ((String.mk (pyFloatRepr m.height)).toList ++
        ' ' :: (String.mk (intRepr m.value)).toList) := by
    simp [List.append_assoc, List.cons_append]
  rw [to_file_string, from_file_string, hshape]
  rw [pySplit_three_str m.date (String.mk (pyFloatRepr m.height)) (String.mk (intRepr m.value))
    hdne (pyFloatRepr_ne_nil m.height) (intRepr_ne_nil m.value)
    hdnw (pyFloatRepr_no_ws m.height) (intRepr_no_ws m.value)]
  show (match pyFloatOfString (String.mk (pyFloatRepr m.height)) with
    | none => Except.error PyErr.valueError
    | some h =>
      match pyIntOfString (String.mk (intRepr m.value)) with
      | none => Except.error PyErr.valueError
      | some v => Except.ok ⟨m.date, h, v⟩) = Except.ok m
  rw [show pyFloatOfString (String.mk (pyFloatRepr m.height)) =
      pyFloatOfList (pyFloatRepr m.height) from rfl]
  rw [pyFloatRepr_roundtrip hh]
  rw [show pyIntOfString (String.mk (intRepr m.value)) =
      pyIntOfList (intRepr m.value) from rfl]
  rw [pyIntRepr_roundtrip m.value]

/-! ## Loading serialised records -/

theorem loadAux_serialized :
    ∀ (l acc : List Measurement), (∀ x ∈ l, Serializable x) →
      loadAux acc (l.map to_file_string) = .ok (acc ++ l) := by
  intro l
  induction l with
  | nil => intro acc _; simp [loadAux]
  | cons m l ih =>
    intro acc h
    rw [List.map_cons, loadAux.eq_def]
    dsimp only
    rw [from_to_file_string (h m (List.mem_cons_self m l))]
    dsimp only
    rw [ih (acc ++ [m]) fun x hx => h x (List.mem_cons_of_mem m hx)]
    simp

/-! ## Parser output facts -/

theorem decOfParts_normal (neg : Bool) (iv fv fl : ℕ) (ex : ℤ) :
    (decOfParts neg iv fv fl ex).normal := by
  have hgen : ∀ (n : ℤ) (e : ℕ), (PyFloat.finite (mkDec n e).1 (mkDec n e).2).normal :=
    fun n e => normDec_normal e n e le_rfl
  rw [decOfParts.eq_def]
  match ex with
  | .ofNat k => exact hgen _ _
  | .negSucc k => exact hgen _ _

theorem pyFloatOfList_normal {cs : List Char} {v : PyFloat}
    (h : pyFloatOfList cs = some v) : v.normal := by
  rw [pyFloatOfList] at h
  dsimp only at h
  split at h
  · cases Option.some.inj h
    trivial
  · split at h
    · cases Option.some.inj h
      trivial
    · split at h
      · cases Option.some.inj h
        exact decOfParts_normal _ _ _ _ _
      · exact absurd h (by simp)

theorem parse_date_ok {s d : String} (h : parse_date s = .ok d) :
    d = s ∧ validDate s := by
  rw [parse_date] at h
  split at h
  case _ hvalid => exact ⟨(Except.ok.inj h).symm, hvalid⟩
  case _ => exact absurd h (by simp)

theorem parse_height_ok {s : String} {v : PyFloat} (h : parse_height s = .ok v) :
    pyFloatOfString s = some v ∧ pyFloatLtZero v = false := by
  rw [parse_height] at h
  split at h
  · exact absurd h (by simp)
  case _ w hw =>
    split at h
    · exact absurd h (by simp)
    · rename_i hlt
      cases Except.ok.inj h
      exact ⟨hw, by simpa using hlt⟩

theorem parse_pressure_ok {s : String} {v : ℤ} (h : parse_pressure s = .ok v) :
    pyIntOfString s = some v ∧ 0 < v := by
  rw [parse_pressure] at h
  split at h
  · exact absurd h (by simp)
  case _ w hw =>
    split at h
    · exact absurd h (by simp)
    · rename_i hle
      cases Except.ok.inj h
      exact ⟨hw, by omega⟩

theorem parse_ok_props {text : String} {m : Measurement} (h : parse text = .ok m) :
    validDate m.date ∧ pyFloatLtZero m.height = false ∧ 0 < m.value ∧ m.height.normal := by
  rw [parse.eq_def] at h
  split at h
  case _ t1 t2 t3 =>
    split at h
    case _ => exact absurd h (by simp)
    case _ d hd =>
      split at h
      case _ => exact absurd h (by simp)
      case _ hgt hh =>
        split at h
        case _ => exact absurd h (by simp)
        case _ v hv =>
          cases Except.ok.inj h
          obtain ⟨hds, hdv⟩ := parse_date_ok hd
          obtain ⟨hfs, hflt⟩ := parse_height_ok hh
          obtain ⟨-, hipos⟩ := parse_pressure_ok hv
          subst hds
          exact ⟨hdv, hflt, hipos, pyFloatOfList_normal hfs⟩
  case _ => exact absurd h (by simp)

/-! ## Stability of the sort

Python's sort is stable; `List.insertionSort` is the canonical stable sort,
and these lemmas express stability: filtering an equal-key class out of the
sorted list yields exactly the same sequence as filtering the input. -/

theorem filter_orderedInsert_pos {α : Type} (r : α → α → Prop) [DecidableRel r]
    (p : α → Bool) (x : α) (l : List α)
    (hpx : p x = true) (himp : ∀ y, p y = true → r x y) :
    (l.orderedInsert r x).filter p = x :: l.filter p := by
  rw [List.orderedInsert_eq_take_drop, List.filter_append]
  have htake : (l.takeWhile fun b => ¬r x b).filter p = [] := by
    rw [List.filter_eq_nil_iff]
    intro a ha
    have hmem := List.mem_takeWhile_imp ha
    intro hpa
    exact (of_decide_eq_true hmem) (himp a hpa)
  rw [htake, List.nil_append, List.filter_cons_of_pos hpx]
  congr 1
  conv_rhs => rw [← List.takeWhile_append_dropWhile (p := fun b => ¬r x b) (l := l)]
  rw [List.filter_append, htake, List.nil_append]

theorem filter_orderedInsert_neg {α : Type} (r : α → α → Prop) [DecidableRel r]
    (p : α → Bool) (x : α) (l : List α) (hpx : p x = false) :
    (l.orderedInsert r x).filter p = l.filter p := by
  rw [List.orderedInsert_eq_take_drop, List.filter_append, List.filter_cons_of_neg (by simp [hpx])]
  conv_rhs => rw [← List.takeWhile_append_dropWhile (p := fun b => ¬r x b) (l := l)]
  rw [List.filter_append]

theorem filter_insertionSort {α : Type} (r : α → α → Prop) [DecidableRel r]
    (p : α → Bool) (hcl : ∀ x y, p x = true → p y = true → r x y) :
    ∀ l : List α, (List.insertionSort r l).filter p = l.filter p := by
  intro l
  induction l with
  | nil => rfl
  | cons a l ih =>
    rw [List.insertionSort]
    by_cases hpa : p a = true
    · rw [filter_orderedInsert_pos r p a _ hpa fun y hy => hcl a y hpa hy, ih,
        List.filter_cons_of_pos hpa]
    · have hpa' : p a = false := by simpa using hpa
      rw [filter_orderedInsert_neg r p a _ hpa', ih, List.filter_cons_of_neg (by simp [hpa'])]

/-! ## Which errors each validation step can raise -/

theorem parse_date_error {s : String} {e : PyErr} (h : parse_date s = .error e) :
    e = .inputError .malformedDate := by
  rw [parse_date] at h
  split at h
  · exact absurd h (by simp)
  · exact (Except.error.inj h).symm

theorem parse_height_error {s : String} {e : PyErr} (h : parse_height s = .error e) :
    e = .inputError .notANumber ∨ e = .inputError .negativeHeight := by
  rw [parse_height] at h
  split at h
  · exact Or.inl (Except.error.inj h).symm
  · split at h
    · exact Or.inr (Except.error.inj h).symm
    · exact absurd h (by simp)

theorem parse_pressure_error {s : String} {e : PyErr} (h : parse_pressure s = .error e) :
    e = .inputError .notAnInteger ∨ e = .inputError .nonPositivePressure := by
  rw [parse_pressure] at h
  split at h
  · exact Or.inl (Except.error.inj h).symm
  · split at h
    · exact Or.inr (Except.error.inj h).symm
    · exact absurd h (by simp)

/-! # The claims -/

/-- C1, counterexample.  The claim says every Measurement in the collection
satisfies the three field constraints no matter whether it entered via
`Parser.parse` or via deserialising a persisted line.  But
`from_file_string` only checks the token count, so opening a repository
whose file holds the line `"garbage -5 -10"` stores a measurement violating
all three constraints at once. -/
theorem claim_C1_counterexample :
    load (some ["garbage -5 -10"]) =
      .ok [⟨"garbage", PyFloat.finite (-5) 0, -10⟩] ∧
      ¬validDate "garbage" ∧
      pyFloatGeZero (PyFloat.finite (-5) 0) = false ∧
      ¬(0 : ℤ) < -10 := by
  refine ⟨by decide, by decide, by decide, by decide⟩

/-- C1 (amended): only measurements that enter through `Parser.parse` are
guaranteed well formed — with a strptime-valid date, height not less than 0
(NaN passes the `height < 0` check), and positive integer pressure;
measurements deserialised from a file line are not revalidated and can
violate every constraint. -/
theorem claim_C1_amended {text : String} {m : Measurement} (h : parse text = .ok m) :
    validDate m.date ∧ pyFloatLtZero m.height = false ∧ 0 < m.value := by
  obtain ⟨h1, h2, h3, -⟩ := parse_ok_props h
  exact ⟨h1, h2, h3⟩

theorem claim_C1_amended_witness :
    validDate ("2025.01.10" : String) ∧
      pyFloatLtZero (PyFloat.finite 150 0) = false ∧ (0 : ℤ) < 760 :=
  claim_C1_amended (show parse "2025.01.10 150 760" =
    .ok ⟨"2025.01.10", PyFloat.finite 150 0, 760⟩ by decide)

/-- C2, counterexample.  The claim says the date token must be exactly 10
characters with dots at positions 5 and 8, otherwise `MalformedDate`.  But
`parse_date` delegates to `strptime("%Y.%m.%d")`, which also accepts one-digit
months and days: the 8-character token `"2025.1.5"` parses successfully. -/
theorem claim_C2_counterexample :
    parse "2025.1.5 100 700" = .ok ⟨"2025.1.5", PyFloat.finite 100 0, 700⟩ ∧
      "2025.1.5".toList.length ≠ 10 := by
  refine ⟨by decide, by decide⟩

/-- C2 (amended): for a three-token input, parse fails with `MalformedDate`
exactly when `strptime("%Y.%m.%d")` rejects the first token (four year
digits with year ≥ 1, a dot, a 1–2 digit month in 1..12, a dot, and a
1–2 digit day valid for that month and year — so canonical 10-character
dates are accepted but not required); on success the token is stored
verbatim. -/
theorem claim_C2_amended {text t1 t2 t3 : String} (hs : pySplit text = [t1, t2, t3]) :
    (¬validDate t1 → parse text = .error (.inputError .malformedDate)) ∧
    (parse text = .error (.inputError .malformedDate) → ¬validDate t1) ∧
    (∀ m : Measurement, parse text = .ok m → m.date = t1) := by
  rw [parse.eq_def, hs]
  dsimp only
  by_cases hval : validDate t1
  · have hval2 : (dateParts t1.toList).isSome = true := hval
    have hdok : parse_date t1 = .ok t1 := by rw [parse_date, if_pos hval2]
    rw [hdok]
    dsimp only
    refine ⟨fun hcon => absurd hval hcon, ?_, ?_⟩
    · intro hcon
      exfalso
      cases hh : parse_height t2 with
      | error e =>
        rw [hh] at hcon
        dsimp only at hcon
        rcases parse_height_error hh with rfl | rfl <;> simp at hcon
      | ok hgt =>
        rw [hh] at hcon
        dsimp only at hcon
        cases hv : parse_pressure t3 with
        | error e =>
          rw [hv] at hcon
          dsimp only at hcon
          rcases parse_pressure_error hv with rfl | rfl <;> simp at hcon
        | ok v =>
          rw [hv] at hcon
          dsimp only at hcon
          exact absurd hcon (by simp)
    · intro m hm
      cases hh : parse_height t2 with
      | error e => rw [hh] at hm; exact absurd hm (by simp)
      | ok hgt =>
        rw [hh] at hm
        dsimp only at hm
        cases hv : parse_pressure t3 with
        | error e => rw [hv] at hm; exact absurd hm (by simp)
        | ok v =>
          rw [hv] at hm
          dsimp only at hm
          cases Except.ok.inj hm
          rfl
  · have hval2 : ¬(dateParts t1.toList).isSome = true := hval
    have hderr : parse_date t1 = .error (.inputError .malformedDate) := by
      rw [parse_date, if_neg hval2]
    rw [hderr]
    dsimp only
    exact ⟨fun _ => rfl, fun _ => hval, fun m hm => absurd hm (by simp)⟩

theorem claim_C2_amended_witness :
    parse "2025-01-10 100 700" = .error (.inputError .malformedDate) :=
  (claim_C2_amended (show pySplit "2025-01-10 100 700" =
    ["2025-01-10", "100", "700"] by decide)).1 (by decide)

/-- C3, code bug.  The claim (and the code's own intent: `_load` catches
`InputError` per line, and `from_file_string` raises `InputError`
"corrupt line in file" precisely to be skipped; the sibling `3rabota.py`
catches every exception here) is that every undeserialisable line is
skipped.  But a line with exactly 3 tokens whose height or pressure token
does not convert raises `ValueError` from `float`/`int`, which
`except InputError` does not catch, so the whole open fails.  The other
legs of the claim do hold: a wrong-token-count line is skipped and a
missing file loads as empty. -/
theorem claim_C3_code_bug :
    load (some ["2025.01.10 abc 700", "2025.01.10 150.0 760"]) = .error .valueError ∧
      from_file_string "2025.01.10 abc 700" = .error .valueError ∧
      load (some ["junk junk", "2025.01.10 150.0 760"]) =
        .ok [⟨"2025.01.10", PyFloat.finite 150 0, 760⟩] ∧
      load none = .ok [] := by
  refine ⟨by decide, by decide, by decide, by decide⟩

/-- C4: a parsed measurement, added to a repository whose records are
serialisable (as every record a program run produces is), survives the
rewrite of the durable mirror and a reopen: the reloaded collection is
exactly the old one plus `m`, so it contains `m`. -/
theorem claim_C4 {text : String} {m : Measurement} {r : Repo}
    (hm : parse text = .ok m) (hr : ∀ x ∈ r.data, Serializable x) :
    openRepo (add m r).file = .ok ⟨r.data ++ [m], (add m r).file⟩ ∧
      m ∈ r.data ++ [m] := by
  have hser : ∀ x ∈ r.data ++ [m], Serializable x := by
    intro x hx
    rcases List.mem_append.mp hx with h | h
    · exact hr x h
    · rw [List.mem_singleton] at h
      subst h
      obtain ⟨h1, -, -, h4⟩ := parse_ok_props hm
      exact ⟨h1, h4⟩
  have hfile : (add m r).file = some ((r.data ++ [m]).map to_file_string) := rfl
  have hload : load (add m r).file = .ok (r.data ++ [m]) := by
    rw [hfile, load]
    rw [loadAux_serialized (r.data ++ [m]) [] hser]
    rw [List.nil_append]
  constructor
  · rw [openRepo, hload]
  · exact List.mem_append.mpr (Or.inr (List.mem_singleton.mpr rfl))

theorem claim_C4_witness :
    openRepo (add ⟨"2025.01.10", PyFloat.finite 150 0, 760⟩ ⟨[], none⟩).file =
      .ok ⟨[] ++ [⟨"2025.01.10", PyFloat.finite 150 0, 760⟩],
        (add ⟨"2025.01.10", PyFloat.finite 150 0, 760⟩ ⟨[], none⟩).file⟩ ∧
      (⟨"2025.01.10", PyFloat.finite 150 0, 760⟩ : Measurement) ∈
        [] ++ [⟨"2025.01.10", PyFloat.finite 150 0, 760⟩] :=
  claim_C4 (show parse "2025.01.10 150 760" =
    .ok ⟨"2025.01.10", PyFloat.finite 150 0, 760⟩ by decide) (by simp)

/-- C5: `top_n_by_pressure 5` returns the `min(5, length)` greatest-value
records: its length is `min 5 (length l)`; it is descending by value; every
returned record's value dominates every record it leaves out; together with
the left-out records it is a permutation of the collection; ties keep the
original collection order (stability, phrased as filter-equality on each
value class of the stable sort whose 5-prefix is returned); and it is a pure
read — the repository state is returned unchanged, and being a function of
the collection it is idempotent. -/
theorem claim_C5 (l : List Measurement) (v : ℤ) (r : Repo) :
    (top_n_by_pressure 5 l).length = min 5 l.length ∧
    List.Pairwise (fun a b : Measurement => b.value ≤ a.value) (top_n_by_pressure 5 l) ∧
    (∀ a ∈ top_n_by_pressure 5 l,
      ∀ b ∈ (List.insertionSort (fun a b : Measurement => b.value ≤ a.value) l).drop 5,
        b.value ≤ a.value) ∧
    List.Perm (top_n_by_pressure 5 l ++
      (List.insertionSort (fun a b : Measurement => b.value ≤ a.value) l).drop 5) l ∧
    (List.insertionSort (fun a b : Measurement => b.value ≤ a.value) l).filter
        (fun m => m.value = v) = l.filter (fun m => m.value = v) ∧
    show_top5 r = (top_n_by_pressure 5 r.data, r) := by
  haveI : IsTotal Measurement (fun a b : Measurement => b.value ≤ a.value) :=
    ⟨fun a b => le_total b.value a.value⟩
  haveI : IsTrans Measurement (fun a b : Measurement => b.value ≤ a.value) :=
    ⟨fun a b c hab hbc => le_trans hbc hab⟩
  have hsorted := List.sorted_insertionSort (fun a b : Measurement => b.value ≤ a.value) l
  have hperm := List.perm_insertionSort (fun a b : Measurement => b.value ≤ a.value) l
  refine ⟨?_, ?_, ?_, ?_, ?_, rfl⟩
  · rw [top_n_by_pressure, List.length_take, hperm.length_eq]
  · exact List.Pairwise.sublist (List.take_sublist 5 _) hsorted
  · intro a ha b hb
    have hsplit := List.take_append_drop 5
      (List.insertionSort (fun a b : Measurement => b.value ≤ a.value) l)
    rw [← hsplit] at hsorted
    exact (List.pairwise_append.mp hsorted).2.2 a ha b hb
  · rw [top_n_by_pressure, List.take_append_drop]
    exact hperm
  · refine filter_insertionSort _ _ ?_ l
    intro x y hx hy
    rw [decide_eq_true_eq] at hx hy
    exact le_of_eq (hy.trans hx.symm)

theorem claim_C5_witness :
    (top_n_by_pressure 5 [⟨"a", PyFloat.nan, 1⟩, ⟨"b", PyFloat.nan, 3⟩,
      ⟨"c", PyFloat.nan, 2⟩, ⟨"d", PyFloat.nan, 3⟩, ⟨"e", PyFloat.nan, 0⟩,
      ⟨"f", PyFloat.nan, 5⟩, ⟨"g", PyFloat.nan, 4⟩]).length =
      min 5 ([⟨"a", PyFloat.nan, 1⟩, ⟨"b", PyFloat.nan, 3⟩,
        ⟨"c", PyFloat.nan, 2⟩, ⟨"d", PyFloat.nan, 3⟩, ⟨"e", PyFloat.nan, 0⟩,
        ⟨"f", PyFloat.nan, 5⟩, ⟨"g", PyFloat.nan, 4⟩] : List Measurement).length ∧
    top_n_by_pressure 5 [⟨"a", PyFloat.nan, 1⟩, ⟨"b", PyFloat.nan, 3⟩,
      ⟨"c", PyFloat.nan, 2⟩, ⟨"d", PyFloat.nan, 3⟩, ⟨"e", PyFloat.nan, 0⟩,
      ⟨"f", PyFloat.nan, 5⟩, ⟨"g", PyFloat.nan, 4⟩] =
      [⟨"f", PyFloat.nan, 5⟩, ⟨"g", PyFloat.nan, 4⟩, ⟨"b", PyFloat.nan, 3⟩,
        ⟨"d", PyFloat.nan, 3⟩, ⟨"c", PyFloat.nan, 2⟩] :=
  ⟨(claim_C5 [⟨"a", PyFloat.nan, 1⟩, ⟨"b", PyFloat.nan, 3⟩,
      ⟨"c", PyFloat.nan, 2⟩, ⟨"d", PyFloat.nan, 3⟩, ⟨"e", PyFloat.nan, 0⟩,
      ⟨"f", PyFloat.nan, 5⟩, ⟨"g", PyFloat.nan, 4⟩] 3 ⟨[], none⟩).1, by decide⟩

/-- C6: on a three-token input whose date token is valid, the parser fails
with `NotANumber` when the height token does not convert to a float, with
`NegativeHeight` when it converts to a value less than 0, with
`NotAnInteger` when (the height passing) the pressure token does not convert
to an int, and with `NonPositivePressure` when it converts to a value ≤ 0 —
checked left to right, failing fast. -/
theorem claim_C6 {text t1 t2 t3 : String} (hs : pySplit text = [t1, t2, t3])
    (hd : validDate t1) :
    (pyFloatOfString t2 = none → parse text = .error (.inputError .notANumber)) ∧
    (∀ h : PyFloat, pyFloatOfString t2 = some h → pyFloatLtZero h = true →
      parse text = .error (.inputError .negativeHeight)) ∧
    (∀ h : PyFloat, pyFloatOfString t2 = some h → pyFloatLtZero h = false →
      pyIntOfString t3 = none → parse text = .error (.inputError .notAnInteger)) ∧
    (∀ (h : PyFloat) (v : ℤ), pyFloatOfString t2 = some h → pyFloatLtZero h = false →
      pyIntOfString t3 = some v → v ≤ 0 →
      parse text = .error (.inputError .nonPositivePressure)) := by
  have hval2 : (dateParts t1.toList).isSome = true := hd
  have hdok : parse_date t1 = .ok t1 := by rw [parse_date, if_pos hval2]
  rw [parse.eq_def, hs]
  dsimp only
  rw [hdok]
  dsimp only
  refine ⟨?_, ?_, ?_, ?_⟩
  · intro hnone
    have hph : parse_height t2 = .error (.inputError .notANumber) := by
      rw [parse_height, hnone]
    rw [hph]
  · intro h hsome hlt
    have hph : parse_height t2 = .error (.inputError .negativeHeight) := by
      rw [parse_height, hsome]
      dsimp only
      rw [if_pos hlt]
    rw [hph]
  · intro h hsome hlt hnone
    have hph : parse_height t2 = .ok h := by
      rw [parse_height, hsome]
      dsimp only
      rw [if_neg (by rw [hlt]; exact Bool.false_ne_true)]
    have hpp : parse_pressure t3 = .error (.inputError .notAnInteger) := by
      rw [parse_pressure, hnone]
    rw [hph]
    dsimp only
    rw [hpp]
  · intro h v hsome hlt hsv hle
    have hph : parse_height t2 = .ok h := by
      rw [parse_height, hsome]
      dsimp only
      rw [if_neg (by rw [hlt]; exact Bool.false_ne_true)]
    have hpp : parse_pressure t3 = .error (.inputError .nonPositivePressure) := by
      rw [parse_pressure, hsv]
      dsimp only
      rw [if_pos hle]
    rw [hph]
    dsimp only
    rw [hpp]

theorem claim_C6_witness :
    parse "2025.01.10 ten 700" = .error (.inputError .notANumber) :=
  (claim_C6 (show pySplit "2025.01.10 ten 700" = ["2025.01.10", "ten", "700"] by decide)
    (by decide)).1 (by decide)

/-- C7: the parser fails with `WrongFieldCount` exactly on the inputs that
do not split into three whitespace-separated tokens — and on a three-token
input no step of the pipeline can produce that error kind. -/
theorem claim_C7 (text : String) :
    (pySplit text).length ≠ 3 ↔ parse text = .error (.inputError .wrongFieldCount) := by
  rw [parse.eq_def]
  rcases hsp : pySplit text with _ | ⟨a, _ | ⟨b, _ | ⟨c, _ | ⟨d, t⟩⟩⟩⟩
  · simp
  · simp
  · simp
  · simp only [List.length_cons, List.length_nil]
    constructor
    · omega
    · intro hcon
      exfalso
      cases hdd : parse_date a with
      | error e =>
        rw [hdd] at hcon
        dsimp only at hcon
        rw [parse_date_error hdd] at hcon
        simp at hcon
      | ok dd =>
        rw [hdd] at hcon
        dsimp only at hcon
        cases hh : parse_height b with
        | error e =>
          rw [hh] at hcon
          dsimp only at hcon
          rcases parse_height_error hh with rfl | rfl <;> simp at hcon
        | ok hgt =>
          rw [hh] at hcon
          dsimp only at hcon
          cases hp : parse_pressure c with
          | error e =>
            rw [hp] at hcon
            dsimp only at hcon
            rcases parse_pressure_error hp with rfl | rfl <;> simp at hcon
          | ok v =>
            rw [hp] at hcon
            dsimp only at hcon
            simp at hcon
  · simp only [List.length_cons]
    constructor
    · intro _; trivial
    · intro _; omega

theorem claim_C7_witness :
    parse "2025.01.10 150" = .error (.inputError .wrongFieldCount) :=
  (claim_C7 "2025.01.10 150").mp (by decide)

/-- C8: serialising any valid measurement (strptime-valid date,
height ≥ 0, positive pressure) whose height is in the canonical decimal
form every `float` value has, and deserialising the line, returns a
measurement equal to it in all three fields. -/
theorem claim_C8 {m : Measurement} (hd : validDate m.date)
    (_hh : pyFloatGeZero m.height = true) (_hv : 0 < m.value) (hn : m.height.normal) :
    from_file_string (to_file_string m) = .ok m :=
  from_to_file_string ⟨hd, hn⟩

theorem claim_C8_witness :
    from_file_string (to_file_string ⟨"2025.01.10", PyFloat.finite 15 1, 760⟩) =
      .ok ⟨"2025.01.10", PyFloat.finite 15 1, 760⟩ :=
  claim_C8 (by decide) (by decide) (by decide)
    (show (1 : ℕ) = 0 ∨ (15 : ℤ) % 10 ≠ 0 by decide)

/-- C9: when every stored date still parses (as is the case for any
repository the program itself produced), `sort_by_date` succeeds, returning
the same records (a permutation) in ascending calendar order, rewrites the
durable mirror from the sorted collection, and is idempotent: a collection
already sorted by date is returned unchanged. -/
theorem claim_C9 {r : Repo} (hall : ∀ x ∈ r.data, validDate x.date) :
    ∃ r2 : Repo, sort_by_date r = .ok r2 ∧
      List.Perm r2.data r.data ∧
      List.Pairwise (fun a b : Measurement => dkey a ≤ dkey b) r2.data ∧
      r2.file = some (r2.data.map to_file_string) ∧
      (List.Pairwise (fun a b : Measurement => dkey a ≤ dkey b) r.data →
        r2.data = r.data) := by
  haveI : IsTotal Measurement (fun a b : Measurement => dkey a ≤ dkey b) :=
    ⟨fun a b => le_total (dkey a) (dkey b)⟩
  haveI : IsTrans Measurement (fun a b : Measurement => dkey a ≤ dkey b) :=
    ⟨fun a b c hab hbc => le_trans hab hbc⟩
  have hcond : r.data.all (fun m => (dateParts m.date.toList).isSome) = true := by
    rw [List.all_eq_true]
    intro x hx
    exact hall x hx
  refine ⟨⟨List.insertionSort (fun a b : Measurement => dkey a ≤ dkey b) r.data,
    some ((List.insertionSort (fun a b : Measurement => dkey a ≤ dkey b) r.data).map
      to_file_string)⟩, ?_, ?_, ?_, rfl, ?_⟩
  · rw [sort_by_date, if_pos hcond]
  · exact List.perm_insertionSort _ _
  · exact List.sorted_insertionSort _ _
  · intro hsorted
    exact List.Sorted.insertionSort_eq hsorted

theorem claim_C9_witness : ∃ r2 : Repo,
    sort_by_date ⟨[⟨"2025.03.02", PyFloat.finite 0 0, 1013⟩,
      ⟨"2025.01.10", PyFloat.finite 150 0, 760⟩], none⟩ = .ok r2 ∧
    List.Perm r2.data [⟨"2025.03.02", PyFloat.finite 0 0, 1013⟩,
      ⟨"2025.01.10", PyFloat.finite 150 0, 760⟩] ∧
    List.Pairwise (fun a b : Measurement => dkey a ≤ dkey b) r2.data ∧
    r2.file = some (r2.data.map to_file_string) ∧
    (List.Pairwise (fun a b : Measurement => dkey a ≤ dkey b)
      [⟨"2025.03.02", PyFloat.finite 0 0, 1013⟩,
        ⟨"2025.01.10", PyFloat.finite 150 0, 760⟩] →
      r2.data = [⟨"2025.03.02", PyFloat.finite 0 0, 1013⟩,
        ⟨"2025.01.10", PyFloat.finite 150 0, 760⟩]) :=
  claim_C9 (by decide)

/-- C10: `add` appends to the in-memory list before saving, with no
rollback: when the durable-mirror rewrite fails, the error propagates while
the in-memory collection already contains `m` and the file is unchanged —
memory and disk have diverged; on a successful write the mirror is rewritten
in full from the appended collection. -/
theorem claim_C10 (m : Measurement) (r : Repo) :
    (addOp false m r).1 = .error .storageWriteFailure ∧
    (addOp false m r).2.data = r.data ++ [m] ∧
    m ∈ (addOp false m r).2.data ∧
    (addOp false m r).2.file = r.file ∧
    (addOp true m r).2.data = r.data ++ [m] ∧
    (addOp true m r).2.file = some ((r.data ++ [m]).map to_file_string) := by
  refine ⟨rfl, rfl, ?_, rfl, rfl, rfl⟩
  show m ∈ r.data ++ [m]
  exact List.mem_append.mpr (Or.inr (List.mem_singleton.mpr rfl))

end FustA
